import Mathlib

/-!
Shallow embedding of the ICF ClaML-to-JSON exporter
(`src/icf_to_json.py`, `src/icf-to-json.py`) and of the GitHub read
client (`src/icf_github_client.py`), together with theorems settling
the specification claims about them.

Python dictionaries are modelled as association lists with
Python-update semantics (`dictUpd` keeps the position of an existing
key), XML elements as plain structures, fallible operations as
`Option`/`Except`, and the recursive tree walk as a fuel-indexed
function (the source has no termination guard, so termination itself
is a property to settle, not an assumption).
-/

/-- A `Label` element: optional `xml:lang` attribute and its text
(`None` text is read as the empty string by the source). -/
structure ClamlLabel where
  lang : Option String
  text : String
deriving DecidableEq

/-- A `Rubric` element: optional `kind` attribute and its `Label` children. -/
structure ClamlRubric where
  kind : Option String
  labels : List ClamlLabel
deriving DecidableEq

/-- A `Class` element: required `code`, optional `kind` attribute, its
`Rubric` children and the codes of its `SubClass` references in
document order (`get_children_codes`). -/
structure ClamlClass where
  code : String
  kind : Option String
  rubrics : List ClamlRubric
  subclasses : List String
deriving DecidableEq

/-- The normalized record built by `class_to_dict`.  The Python dict
holds `code`, `kind` and `children` always, and each annotation field
only when data exists; absence is modelled as `none`. -/
structure NormRecord where
  code : String
  kind : Option String
  children : List String
  preferred : Option String := none
  preferred_full : Option (List String) := none
  definitions : Option (List String) := none
  coding_hints : Option (List String) := none
  inclusions : Option (List String) := none
  exclusions : Option (List String) := none
  texts : Option (List String) := none
deriving DecidableEq

/-- Split a character list at every whitespace character (kernel-computable
counterpart of splitting a string on whitespace). -/
def splitWs : List Char → List (List Char)
  | [] => [[]]
  | c :: cs =>
    let rest := splitWs cs
    if c.isWhitespace then [] :: rest
    else
      match rest with
      | [] => [[c]]
      | w :: ws => (c :: w) :: ws

/-- Python `s.split()` : split on whitespace runs, dropping empty pieces. -/
def pyWords (s : String) : List String :=
  ((splitWs s.toList).map List.asString).filter fun w => decide (w ≠ "")

/-- Python `" ".join(t.split())` : collapse all whitespace to single spaces. -/
def normWs (s : String) : String :=
  String.intercalate " " (pyWords s)

/-- `extract_rubrics`: all label texts of rubrics of the given kind,
where a label is kept when `label.attrib.get(XML_LANG, lang) == lang`
or the attribute is absent, its text whitespace-collapsed, and empty
stripped texts are dropped. -/
def extract_rubrics (cls : ClamlClass) (kind : String) (lang : String) : List String :=
  cls.rubrics.flatMap fun rubric =>
    if rubric.kind = some kind then
      rubric.labels.filterMap fun l =>
        if l.lang.getD lang = lang ∨ l.lang = none then
          if normWs l.text = "" then none else some (normWs l.text)
        else none
    else []

/-- Modelled from the spec words (§4.1), for comparison with
`extract_rubrics`: keep the labels of the matching rubrics whose tag
equals the requested language or is absent, collapse whitespace, drop
values that are empty after trimming. -/
def specResolveRubrics (cls : ClamlClass) (kind : String) (lang : String) : List String :=
  (((((cls.rubrics.filter fun rubric => decide (rubric.kind = some kind)).flatMap
      fun rubric => rubric.labels).filter
        fun l => decide (l.lang = some lang ∨ l.lang = none)).map
          fun l => normWs l.text).filter
            fun t => decide (t ≠ ""))

/-- `class_to_dict`: one normalized record per class element. -/
def class_to_dict (cls : ClamlClass) (lang : String) : NormRecord :=
  let pref := extract_rubrics cls "preferred" lang
  let defs := extract_rubrics cls "definition" lang
  let hint := extract_rubrics cls "coding-hint" lang
  let incl := extract_rubrics cls "inclusion" lang
  let excl := extract_rubrics cls "exclusion" lang
  let txts := extract_rubrics cls "text" lang
  { code := cls.code
    kind := cls.kind
    children := cls.subclasses
    preferred := pref.head?
    preferred_full := if 1 < pref.length then some pref else none
    definitions := if defs = [] then none else some defs
    coding_hints := if hint = [] then none else some hint
    inclusions := if incl = [] then none else some incl
    exclusions := if excl = [] then none else some excl
    texts := if txts = [] then none else some txts }

/-- Concrete node for the language-resolution example: one `preferred`
rubric with an `en`-tagged label and an untagged label. -/
def clsLangEx : ClamlClass :=
  ⟨"b1", none, [⟨some "preferred", [⟨some "en", "Hello"⟩, ⟨none, "Neutral"⟩]⟩], []⟩

/-- Concrete node with two resolved preferred labels. -/
def clsTwoPref : ClamlClass :=
  ⟨"b2", some "category",
    [⟨some "preferred", [⟨none, "Erste  Fassung"⟩]⟩,
     ⟨some "preferred", [⟨none, "Zweite Fassung"⟩]⟩],
    ["b20"]⟩

/-- Lookup in an association list, first match wins (Python `dict` read). -/
def dictGet {α : Type} : List (String × α) → String → Option α
  | [], _ => none
  | (k2, v) :: rest, k => if k = k2 then some v else dictGet rest k

/-- Python `dict` assignment: update the value in place when the key
exists, otherwise append the new pair at the end. -/
def dictUpd {α : Type} : List (String × α) → String → α → List (String × α)
  | [], k, v => [(k, v)]
  | (k2, v2) :: rest, k, v =>
    if k = k2 then (k2, v) :: rest else (k2, v2) :: dictUpd rest k v

/-- `build_code_map`: code → Class element; with duplicate codes the
last occurrence wins, as in the Python dict comprehension. -/
def build_code_map (doc : List ClamlClass) : String → Option ClamlClass :=
  fun c => doc.reverse.find? fun cls => cls.code == c

/-- State accumulated by the recursive export: the growing index
(code → path as recorded by the source), the records written to disk
keyed by their path relative to the export root, the warned-about
missing child codes, and the trace of visited codes. -/
structure ExportState where
  index : List (String × String)
  files : List (String × NormRecord)
  warnings : List String
  visits : List String
deriving DecidableEq

/-- The path the source stores in the index: `json_path.relative_to(target_dir)`
where `target_dir` is the directory of the *current* recursive call, so the
recorded path is always `code/code.json`. -/
def indexRelPath (code : String) : String :=
  String.intercalate "/" [code, code ++ ".json"]

/-- The path of the written record relative to the export root
(the actual on-disk location). -/
def fileRelPath (dir : List String) (code : String) : String :=
  String.intercalate "/" (dir ++ [code, code ++ ".json"])

/-- The loop body of `_save_class_recursive` over the declared child
codes: resolve each child in the code map, warn and continue when it
is missing, otherwise descend via `step`. -/
def runKids (cm : String → Option ClamlClass)
    (step : ClamlClass → ExportState → Option ExportState) :
    List String → ExportState → Option ExportState
  | [], st => some st
  | c :: cs, st =>
    match cm c with
    | none => runKids cm step cs { st with warnings := st.warnings ++ [c] }
    | some child =>
      match step child st with
      | none => none
      | some st2 => runKids cm step cs st2

/-- `_save_class_recursive`, fuel-indexed: write the record, add the
index entry, then recurse into every resolvable declared child.  The
source has no visited-set and no termination guard; `none` means the
fuel ran out, i.e. the recursion depth exceeded the given bound. -/
def saveRec (cm : String → Option ClamlClass) (lang : String) :
    Nat → ClamlClass → List String → ExportState → Option ExportState
  | 0, _, _, _ => none
  | Nat.succ fuel, cls, dir, st =>
    runKids cm (fun child s => saveRec cm lang fuel child (dir ++ [cls.code]) s)
      (class_to_dict cls lang).children
      { index := dictUpd st.index cls.code (indexRelPath cls.code)
        files := dictUpd st.files (fileRelPath dir cls.code) (class_to_dict cls lang)
        warnings := st.warnings
        visits := st.visits ++ [cls.code] }

/-- The loop of `export_icf` over the top-level components. -/
def runTops (cm : String → Option ClamlClass) (lang : String) (fuel : Nat) :
    List ClamlClass → ExportState → Option ExportState
  | [], st => some st
  | t :: ts, st =>
    match saveRec cm lang fuel t [] st with
    | none => none
    | some st2 => runTops cm lang fuel ts st2

/-- `export_icf`: walk every `kind="component"` class and accumulate
the index, which is written as the final artifact. -/
def export_icf (doc : List ClamlClass) (lang : String) (fuel : Nat) : Option ExportState :=
  runTops (build_code_map doc) lang fuel
    (doc.filter fun c => c.kind == some "component") ⟨[], [], [], []⟩

/-- Errors raised by the single-record lookup: the code is not in the
index (Python `KeyError`), or the referenced file does not exist
(Python `FileNotFoundError` from `read_text`). -/
inductive LookupErr
  | keyError (code : String)
  | fileError (path : String)
deriving DecidableEq

instance {ε α : Type} [DecidableEq ε] [DecidableEq α] : DecidableEq (Except ε α) :=
  fun x y =>
    match x, y with
    | Except.error a, Except.error b =>
      if h : a = b then Decidable.isTrue (congrArg Except.error h)
      else Decidable.isFalse (fun hc => h (by injection hc))
    | Except.error _, Except.ok _ => Decidable.isFalse (fun hc => Except.noConfusion hc)
    | Except.ok _, Except.error _ => Decidable.isFalse (fun hc => Except.noConfusion hc)
    | Except.ok a, Except.ok b =>
      if h : a = b then Decidable.isTrue (congrArg Except.ok h)
      else Decidable.isFalse (fun hc => h (by injection hc))

/-- `load_class`: resolve the code in the index, then read the record
stored at the referenced path. -/
def load_class (index : List (String × String)) (files : List (String × NormRecord))
    (code : String) : Except LookupErr NormRecord :=
  match dictGet index code with
  | none => Except.error (LookupErr.keyError code)
  | some rel =>
    match dictGet files rel with
    | none => Except.error (LookupErr.fileError rel)
    | some rec2 => Except.ok rec2

/-- The per-level loop of `_collect` in `list_children`: append each
child code, load its record (exceptions propagate), recurse into its
children via `deeper`, then continue with the siblings. -/
def goKids (index : List (String × String)) (files : List (String × NormRecord))
    (deeper : List String → List String → Except LookupErr (List String)) :
    List String → List String → Except LookupErr (List String)
  | [], acc => Except.ok acc
  | c :: cs, acc =>
    match load_class index files c with
    | Except.error e => Except.error e
    | Except.ok sub =>
      match deeper sub.children (acc ++ [c]) with
      | Except.error e => Except.error e
      | Except.ok acc2 => goKids index files deeper cs acc2

/-- `_collect`: stop when the remaining depth is zero, otherwise walk
one level of children with one unit of depth budget less below. -/
def collectKids (index : List (String × String)) (files : List (String × NormRecord)) :
    Nat → List String → List String → Except LookupErr (List String)
  | 0, _, acc => Except.ok acc
  | Nat.succ d, codes, acc =>
    goKids index files (fun chs a => collectKids index files d chs a) codes acc

/-- `list_children`: load the parent record, then collect descendant
codes up to the depth budget. -/
def list_children (index : List (String × String)) (files : List (String × NormRecord))
    (code : String) (depth : Nat) : Except LookupErr (List String) :=
  match load_class index files code with
  | Except.error e => Except.error e
  | Except.ok parent => collectKids index files depth parent.children []

/-- `create_flat_json`: read every indexed record that exists, skipping
missing ones with a warning; returns the flat map (in index order) and
the list of skipped codes. -/
def create_flat (files : List (String × NormRecord)) :
    List (String × String) → List (String × NormRecord) × List String
  | [] => ([], [])
  | (code, rel) :: rest =>
    let out := create_flat files rest
    match dictGet files rel with
    | none => (out.1, code :: out.2)
    | some d => ((code, d) :: out.1, out.2)

/-- `rel.count("/")` : number of path separators in an index path. -/
def countSlash (s : String) : Nat :=
  s.toList.countP fun c => decide (c = '/')

/-- Arithmetic mean of a list of naturals, as a rational. -/
def ratMean (l : List Nat) : ℚ :=
  (l.map fun n => (n : ℚ)).sum / (l.length : ℚ)

/-- Round-half-to-even to an integer (Python `round`'s tie rule). -/
def roundHalfEven (x : ℚ) : ℤ :=
  if x - Int.floor x < 1/2 then Int.floor x
  else if 1/2 < x - Int.floor x then Int.floor x + 1
  else if Int.floor x % 2 = 0 then Int.floor x else Int.floor x + 1

/-- Python `round(x, 2)`. -/
def pyRound2 (x : ℚ) : ℚ :=
  (roundHalfEven (x * 100) : ℚ) / 100

/-- The dictionary returned by `stats`. -/
structure StatsOut where
  total_classes : Nat
  max_depth : Nat
  avg_children : ℚ
deriving DecidableEq

/-- The loop of `stats` over the index: collect the separator counts
and direct-child counts of the readable entries, and the codes of the
entries whose record file is missing. -/
def statsScan (files : List (String × NormRecord)) :
    List (String × String) → List Nat × List Nat × List String
  | [] => ([], [], [])
  | (code, rel) :: rest =>
    let out := statsScan files rest
    match dictGet files rel with
    | none => (out.1, out.2.1, code :: out.2.2)
    | some d => (countSlash rel :: out.1, d.children.length :: out.2.1, out.2.2)

/-- `stats` (icf_to_json.py): effective total, maximum separator count
over the sampled entries, rounded mean of their direct-child counts. -/
def stats (index : List (String × String)) (files : List (String × NormRecord)) : StatsOut :=
  let out := statsScan files index
  { total_classes := index.length - out.2.2.length
    max_depth := out.1.foldr max 0
    avg_children := if out.2.1.isEmpty then 0 else pyRound2 (ratMean out.2.1) }

/-- Result of one HTTP GET in the remote client: parsed JSON record,
an HTTP error status raised by `raise_for_status`, or any other
exception (connection failure, invalid JSON, ...). -/
inductive HttpResult
  | ok (rec2 : NormRecord)
  | err (status : Nat)
  | exn
deriving DecidableEq

/-- The code extracted from the requested path: `rel_path.split("/")[0]`. -/
def relCode (rel_path : String) : String :=
  (rel_path.toList.takeWhile fun c => decide (c ≠ '/')).asString

/-- Uppercase a string, kernel-computable. -/
def strUpper (s : String) : String :=
  (s.toList.map Char.toUpper).asString

/-- The bounded list of alternative address shapes tried after a 404. -/
def fetchAlternatives (code : String) : List String :=
  [code ++ ".json", code ++ "/" ++ code, strUpper code ++ "/" ++ strUpper code ++ ".json"]

/-- Try the alternative paths in order; an alternative succeeds only if
its GET returns a parsed record (any error is swallowed by the bare
`except: pass`).  Returns the result and the list of paths requested. -/
def tryAlts (network : String → HttpResult) : List String → Option NormRecord × List String
  | [] => (none, [])
  | a :: rest =>
    match network a with
    | HttpResult.ok r => (some r, [a])
    | _ =>
      let out := tryAlts network rest
      (out.1, a :: out.2)

/-- The synthesized placeholder record for a missing entry. -/
def placeholderRecord (code : String) : NormRecord :=
  { code := code
    kind := none
    children := []
    preferred := some ("Fehlender Eintrag: " ++ code)
    definitions := some [] }

/-- Outcome of `fetch_class`: the returned value (`none` models Python's
`None`), the cache afterwards, and the paths requested over the network
during this call. -/
structure FetchOut where
  result : Option NormRecord
  cache : List (String × Option NormRecord)
  calls : List String
deriving DecidableEq

/-- `fetch_class` (icf_github_client.py): consult the cache first; on a
404 of the primary path try the alternative shapes and finally
synthesize a placeholder; cache every outcome under the originally
requested path. -/
def fetch_class (network : String → HttpResult)
    (cache : List (String × Option NormRecord)) (rel_path : String) : FetchOut :=
  match dictGet cache rel_path with
  | some cached => { result := cached, cache := cache, calls := [] }
  | none =>
    match network rel_path with
    | HttpResult.ok data =>
      { result := some data, cache := dictUpd cache rel_path (some data), calls := [rel_path] }
    | HttpResult.err status =>
      if status = 404 then
        let code := relCode rel_path
        let out := tryAlts network (fetchAlternatives code)
        match out.1 with
        | some data =>
          { result := some data
            cache := dictUpd cache rel_path (some data)
            calls := rel_path :: out.2 }
        | none =>
          { result := some (placeholderRecord code)
            cache := dictUpd cache rel_path (some (placeholderRecord code))
            calls := rel_path :: out.2 }
      else { result := none, cache := dictUpd cache rel_path none, calls := [rel_path] }
    | HttpResult.exn =>
      { result := none, cache := dictUpd cache rel_path none, calls := [rel_path] }

/-- The loop of the remote `stats` over the index paths: the separator
count of every entry is sampled *before* fetching; the child count is
sampled only when the fetch returned data; the cache is threaded through. -/
def githubStatsScan (network : String → HttpResult) :
    List String → List (String × Option NormRecord) →
    List Nat × List Nat × List (String × Option NormRecord)
  | [], cache => ([], [], cache)
  | rel :: rest, cache =>
    let o := fetch_class network cache rel
    let out := githubStatsScan network rest o.cache
    (countSlash rel :: out.1,
     (match o.result with
      | some d => d.children.length :: out.2.1
      | none => out.2.1),
     out.2.2)

/-- `stats` (icf_github_client.py): `total_classes` is the nominal
index size and every entry contributes to the depth sample. -/
def githubStats (idx : List (String × String)) (network : String → HttpResult) : StatsOut :=
  let out := githubStatsScan network (idx.map Prod.snd) []
  { total_classes := idx.length
    max_depth := out.1.foldr max 0
    avg_children := if out.2.1.isEmpty then 0 else pyRound2 (ratMean out.2.1) }

/-- Document in which node `X` is declared as a child of both `A` and
`B`: malformed input reachable via multiple parents. -/
def docShared : List ClamlClass :=
  [⟨"root", some "component", [], ["A", "B"]⟩,
   ⟨"A", none, [], ["X"]⟩,
   ⟨"B", none, [], ["X"]⟩,
   ⟨"X", none, [], []⟩]

/-- Document whose component declares the child code `Q9` that has no
corresponding `Class` element, followed by an existing child `B`. -/
def docMissing : List ClamlClass :=
  [⟨"root", some "component", [], ["Q9", "B"]⟩,
   ⟨"B", none, [], []⟩]

/-- Small well-formed document: one component with one child. -/
def docRank : List ClamlClass :=
  [⟨"root", some "component", [], ["A"]⟩,
   ⟨"A", none, [], []⟩]

/-- Rank function witnessing that `docRank`'s child references descend. -/
def rankRank : String → Nat :=
  fun c => if c = "root" then 1 else 0

/-- Index for the bounded-child-enumeration example: root with
children `[X, Y]`, `X` with child `[Z]`. -/
def idxDepth : List (String × String) :=
  [("root", "root.json"), ("X", "X.json"), ("Y", "Y.json"), ("Z", "Z.json")]

/-- Storage for the bounded-child-enumeration example. -/
def filesDepth : List (String × NormRecord) :=
  [("root.json", { code := "root", kind := some "component", children := ["X", "Y"] }),
   ("X.json", { code := "X", kind := none, children := ["Z"] }),
   ("Y.json", { code := "Y", kind := none, children := [] }),
   ("Z.json", { code := "Z", kind := none, children := [] })]

/-- One-entry index whose record cannot be read. -/
def idxBroken : List (String × String) :=
  [("b1", "b1/b1.json")]

/-- A network on which every GET fails with a non-HTTP exception. -/
def netExn : String → HttpResult :=
  fun _ => HttpResult.exn

/-- A network on which every GET returns status 404. -/
def net404 : String → HttpResult :=
  fun _ => HttpResult.err 404


lemma langCond_iff (o : Option String) (lang : String) :
    (o.getD lang = lang ∨ o = none) ↔ (o = some lang ∨ o = none) := by
  cases o <;> simp

lemma labels_filterMap_eq (lang : String) (ls : List ClamlLabel) :
    (ls.filterMap fun l =>
        if l.lang.getD lang = lang ∨ l.lang = none then
          if normWs l.text = "" then none else some (normWs l.text)
        else none)
      = (((ls.filter fun l => decide (l.lang = some lang ∨ l.lang = none)).map
          fun l => normWs l.text).filter fun t => decide (t ≠ "")) := by
  induction ls with
  | nil => rfl
  | cons l ls ih =>
    by_cases hl : l.lang = some lang ∨ l.lang = none
    · have hl2 : l.lang.getD lang = lang ∨ l.lang = none := (langCond_iff _ _).mpr hl
      by_cases ht : normWs l.text = ""
      · simp [List.filterMap_cons, List.filter_cons, hl, hl2, ht, ih]
      · simp [List.filterMap_cons, List.filter_cons, hl, hl2, ht, ih]
    · have hl2 : ¬(l.lang.getD lang = lang ∨ l.lang = none) := fun h =>
        hl ((langCond_iff _ _).mp h)
      simp [List.filterMap_cons, List.filter_cons, hl, hl2, ih]

lemma extract_eq_spec (cls : ClamlClass) (kind lang : String) :
    extract_rubrics cls kind lang = specResolveRubrics cls kind lang := by
  unfold extract_rubrics specResolveRubrics
  induction cls.rubrics with
  | nil => rfl
  | cons r rs ih =>
    by_cases hk : r.kind = some kind
    · simp only [List.flatMap_cons, List.filter_cons, hk, if_true, decide_True,
        List.map_append, List.filter_append, labels_filterMap_eq lang r.labels]
      rw [ih]
    · simp only [List.flatMap_cons, List.filter_cons, hk, if_false, decide_False]
      rw [ih]
      simp

/-- Claim C2: for every source node, annotation kind and requested
language, the resolver returns exactly the (normalized, nonempty)
values of the variants whose tag equals the requested language or that
carry no tag, excluding other-language variants; and the node with an
`en`-tagged and an untagged variant queried in `de` yields exactly the
untagged variant. -/
theorem extract_rubrics_language_rule :
    (∀ (cls : ClamlClass) (kind lang : String),
        extract_rubrics cls kind lang = specResolveRubrics cls kind lang)
    ∧ extract_rubrics clsLangEx "preferred" "de" = ["Neutral"] :=
  ⟨fun cls kind lang => extract_eq_spec cls kind lang, by decide⟩

/-- Claim C3: the preferred-label kind resolves to no `preferred` field
when the list is empty, to `preferred` alone when it has one value, and
to `preferred` = first plus `preferred_full` = full list otherwise. -/
theorem class_to_dict_preferred_rule :
    ∀ (cls : ClamlClass) (lang : String),
      (extract_rubrics cls "preferred" lang = [] →
        (class_to_dict cls lang).preferred = none ∧
          (class_to_dict cls lang).preferred_full = none) ∧
      (∀ t, extract_rubrics cls "preferred" lang = [t] →
        (class_to_dict cls lang).preferred = some t ∧
          (class_to_dict cls lang).preferred_full = none) ∧
      (∀ t ts, extract_rubrics cls "preferred" lang = t :: ts → ts ≠ [] →
        (class_to_dict cls lang).preferred = some t ∧
          (class_to_dict cls lang).preferred_full = some (t :: ts)) := by
  intro cls lang
  refine ⟨fun h => ?_, fun t h => ?_, fun t ts h hts => ?_⟩
  · simp [class_to_dict, h]
  · simp [class_to_dict, h]
  · have hlen : 1 < (t :: ts).length := by
      cases ts with
      | nil => exact absurd rfl hts
      | cons a as => simp only [List.length_cons]; omega
    simp [class_to_dict, h, hlen, hts]

/-- Witness for claim C3 at a node with two resolved preferred labels. -/
theorem class_to_dict_preferred_rule_witness :
    (class_to_dict clsTwoPref "de").preferred = some "Erste Fassung" ∧
      (class_to_dict clsTwoPref "de").preferred_full
        = some ["Erste Fassung", "Zweite Fassung"] :=
  (class_to_dict_preferred_rule clsTwoPref "de").2.2 "Erste Fassung" ["Zweite Fassung"]
    (by decide) (by decide)

/-- Claim C4: the record always carries `code`, `kind` and `children`,
and never an annotation field whose resolved list is empty. -/
theorem class_to_dict_field_presence :
    ∀ (cls : ClamlClass) (lang : String),
      (class_to_dict cls lang).code = cls.code ∧
      (class_to_dict cls lang).kind = cls.kind ∧
      (class_to_dict cls lang).children = cls.subclasses ∧
      (class_to_dict cls lang).definitions ≠ some [] ∧
      (class_to_dict cls lang).coding_hints ≠ some [] ∧
      (class_to_dict cls lang).inclusions ≠ some [] ∧
      (class_to_dict cls lang).exclusions ≠ some [] ∧
      (class_to_dict cls lang).texts ≠ some [] ∧
      (class_to_dict cls lang).preferred_full ≠ some [] ∧
      ((class_to_dict cls lang).preferred = none ↔
        extract_rubrics cls "preferred" lang = []) := by
  intro cls lang
  refine ⟨rfl, rfl, rfl, ?_, ?_, ?_, ?_, ?_, ?_, ?_⟩
  · show (if extract_rubrics cls "definition" lang = [] then none
      else some (extract_rubrics cls "definition" lang)) ≠ some []
    split <;> simp_all
  · show (if extract_rubrics cls "coding-hint" lang = [] then none
      else some (extract_rubrics cls "coding-hint" lang)) ≠ some []
    split <;> simp_all
  · show (if extract_rubrics cls "inclusion" lang = [] then none
      else some (extract_rubrics cls "inclusion" lang)) ≠ some []
    split <;> simp_all
  · show (if extract_rubrics cls "exclusion" lang = [] then none
      else some (extract_rubrics cls "exclusion" lang)) ≠ some []
    split <;> simp_all
  · show (if extract_rubrics cls "text" lang = [] then none
      else some (extract_rubrics cls "text" lang)) ≠ some []
    split <;> simp_all
  · show (if 1 < (extract_rubrics cls "preferred" lang).length then
      some (extract_rubrics cls "preferred" lang) else none) ≠ some []
    split
    · rename_i hgt
      intro hc
      rw [Option.some.injEq] at hc
      rw [hc] at hgt
      simp at hgt
    · simp
  · show (extract_rubrics cls "preferred" lang).head? = none ↔
      extract_rubrics cls "preferred" lang = []
    simp [List.head?_eq_none_iff]

/-- Witness for claim C4 at a concrete node. -/
theorem class_to_dict_field_presence_witness :
    (class_to_dict clsTwoPref "de").code = "b2" ∧
      (class_to_dict clsTwoPref "de").definitions ≠ some [] :=
  ⟨(class_to_dict_field_presence clsTwoPref "de").1,
    (class_to_dict_field_presence clsTwoPref "de").2.2.2.1⟩

lemma dictGet_upd_self {α : Type} (d : List (String × α)) (k : String) (v : α) :
    dictGet (dictUpd d k v) k = some v := by
  induction d with
  | nil => simp [dictUpd, dictGet]
  | cons p rest ih =>
    obtain ⟨k2, v2⟩ := p
    by_cases h : k = k2 <;> simp [dictUpd, dictGet, h, ih]

lemma mem_dictUpd {α : Type} {d : List (String × α)} {k : String} {v : α} {p : String × α} :
    p ∈ dictUpd d k v → p = (k, v) ∨ p ∈ d := by
  induction d with
  | nil =>
    intro h
    simp [dictUpd] at h
    left
    exact h
  | cons q rest ih =>
    obtain ⟨k2, v2⟩ := q
    intro h
    by_cases hk : k = k2
    · rw [dictUpd, if_pos hk] at h
      rcases List.mem_cons.mp h with h1 | h1
      · subst hk
        left
        exact h1
      · right
        exact List.mem_cons_of_mem _ h1
    · rw [dictUpd, if_neg hk] at h
      rcases List.mem_cons.mp h with h1 | h1
      · right
        exact h1 ▸ List.mem_cons_self _ _
      · rcases ih h1 with h2 | h2
        · left
          exact h2
        · right
          exact List.mem_cons_of_mem _ h2

lemma build_code_map_sound {doc : List ClamlClass} {c : String} {cls : ClamlClass} :
    build_code_map doc c = some cls → cls ∈ doc ∧ cls.code = c := by
  intro h
  unfold build_code_map at h
  have hmem := List.mem_of_find?_eq_some h
  have hp := List.find?_some h
  exact ⟨List.mem_reverse.mp hmem, by simpa using hp⟩

lemma runKids_isSome (cm : String → Option ClamlClass)
    (step : ClamlClass → ExportState → Option ExportState) :
    ∀ cs : List String,
      (∀ c ∈ cs, ∀ child, cm c = some child → ∀ s, (step child s).isSome = true) →
      ∀ st, (runKids cm step cs st).isSome = true := by
  intro cs
  induction cs with
  | nil => intro _ st; rfl
  | cons c cs ih =>
    intro h st
    unfold runKids
    split
    · exact ih (fun c2 hc2 child h2 s => h c2 (List.mem_cons_of_mem _ hc2) child h2 s) _
    · rename_i child hc
      have hs := h c (List.mem_cons_self _ _) child hc st
      split
      · rename_i hstep
        rw [hstep] at hs
        simp at hs
      · rename_i st2 hstep
        exact ih (fun c2 hc2 child2 h2 s => h c2 (List.mem_cons_of_mem _ hc2) child2 h2 s) st2

lemma class_to_dict_children (cls : ClamlClass) (lang : String) :
    (class_to_dict cls lang).children = cls.subclasses := rfl

lemma saveRec_isSome_of_rank (doc : List ClamlClass) (lang : String) (r : String → Nat)
    (H : ∀ cls ∈ doc, ∀ c ∈ cls.subclasses, ∀ cls2 ∈ doc, cls2.code = c → r c < r cls.code) :
    ∀ fuel : Nat, ∀ cls ∈ doc, r cls.code < fuel →
      ∀ dir st, (saveRec (build_code_map doc) lang fuel cls dir st).isSome = true := by
  intro fuel
  induction fuel with
  | zero => intro cls _ h; exact absurd h (Nat.not_lt_zero _)
  | succ fuel ih =>
    intro cls hmem hrank dir st
    unfold saveRec
    apply runKids_isSome
    intro c hc child hchild s
    rw [class_to_dict_children] at hc
    have hsound := build_code_map_sound hchild
    have hlt : r c < r cls.code := H cls hmem c hc child hsound.1 hsound.2
    have hfuel : r child.code < fuel := by
      rw [hsound.2]
      exact Nat.lt_of_lt_of_le hlt (Nat.lt_succ_iff.mp hrank)
    exact ih child hsound.1 hfuel _ s

lemma runTops_isSome (cm : String → Option ClamlClass) (lang : String) (fuel : Nat) :
    ∀ ts : List ClamlClass,
      (∀ t ∈ ts, ∀ st, (saveRec cm lang fuel t [] st).isSome = true) →
      ∀ st, (runTops cm lang fuel ts st).isSome = true := by
  intro ts
  induction ts with
  | nil => intro _ st; rfl
  | cons t ts ih =>
    intro h st
    unfold runTops
    have hs := h t (List.mem_cons_self _ _) st
    split
    · rename_i hstep
      rw [hstep] at hs
      simp at hs
    · rename_i st2 hstep
      exact ih (fun t2 ht2 => h t2 (List.mem_cons_of_mem _ ht2)) st2

/-- Claim C1 (amended): when the resolvable child references admit a
strictly decreasing rank from parents to children (in particular on
acyclic, tree-shaped documents) the depth-first walk terminates; but
there is no first-visit-wins deduplication — a node reachable via
multiple parents is re-descended into and written once per path (see
the counterexample below). -/
theorem export_terminates_with_rank (doc : List ClamlClass) (lang : String)
    (r : String → Nat) (fuel : Nat)
    (H : ∀ cls ∈ doc, ∀ c ∈ cls.subclasses, ∀ cls2 ∈ doc, cls2.code = c → r c < r cls.code)
    (hfuel : ∀ cls ∈ doc, cls.kind = some "component" → r cls.code < fuel) :
    (export_icf doc lang fuel).isSome = true := by
  unfold export_icf
  apply runTops_isSome
  intro t ht st
  have hmem : t ∈ doc := (List.mem_filter.mp ht).1
  have hkind : t.kind = some "component" := by
    have h2 := (List.mem_filter.mp ht).2
    simpa using h2
  exact saveRec_isSome_of_rank doc lang r H fuel t hmem (hfuel t hmem hkind) [] st

/-- Witness for (amended) claim C1: the walk of a concrete two-node
document terminates, via the rank function `rankRank`. -/
theorem export_terminates_with_rank_witness :
    (export_icf docRank "de" 2).isSome = true :=
  export_terminates_with_rank docRank "de" rankRank 2 (by decide) (by decide)

/-- Counterexample to claim C1 as stated: in `docShared` the node `X`
is reachable via the two parents `A` and `B`, and the walk visits it
twice — the visit trace is not duplicate-free, so a node whose record
was already written is re-descended into. -/
theorem export_revisits_shared_child :
    (export_icf docShared "de" 9).map ExportState.visits
        = some ["root", "A", "X", "B", "X"] ∧
      ¬(["root", "A", "X", "B", "X"] : List String).Nodup :=
  ⟨by decide, by decide⟩

lemma runKids_preserve (cm : String → Option ClamlClass)
    (step : ClamlClass → ExportState → Option ExportState) (P : ExportState → Prop)
    (hw : ∀ st c, P st → P { st with warnings := st.warnings ++ [c] })
    (hs : ∀ c child st st2, cm c = some child → step child st = some st2 → P st → P st2) :
    ∀ cs st st2, runKids cm step cs st = some st2 → P st → P st2 := by
  intro cs
  induction cs with
  | nil =>
    intro st st2 h hp
    unfold runKids at h
    cases h
    exact hp
  | cons c cs ih =>
    intro st st2 h hp
    unfold runKids at h
    split at h
    · exact ih _ _ h (hw st c hp)
    · rename_i child hc
      split at h
      · exact absurd h (by simp)
      · rename_i stm hstep
        exact ih _ _ h (hs c child st stm hc hstep hp)

lemma saveRec_index_codes (doc : List ClamlClass) (lang : String) :
    ∀ fuel : Nat, ∀ cls ∈ doc, ∀ dir st st2,
      saveRec (build_code_map doc) lang fuel cls dir st = some st2 →
      (∀ p ∈ st.index, ∃ c2 ∈ doc, c2.code = p.1) →
      (∀ p ∈ st2.index, ∃ c2 ∈ doc, c2.code = p.1) := by
  intro fuel
  induction fuel with
  | zero =>
    intro cls _ dir st st2 h
    exact absurd h (by simp [saveRec])
  | succ fuel ih =>
    intro cls hcls dir st st2 h hP
    unfold saveRec at h
    refine runKids_preserve _ _ (fun s => ∀ p ∈ s.index, ∃ c2 ∈ doc, c2.code = p.1)
      ?_ ?_ _ _ _ h ?_
    · intro st3 c hp
      exact hp
    · intro c child st3 st4 hc hstep hp
      exact ih child (build_code_map_sound hc).1 _ st3 st4 hstep hp
    · intro p hp
      rcases mem_dictUpd hp with h1 | h1
      · exact ⟨cls, hcls, by rw [h1]⟩
      · exact hP p h1

lemma runTops_index_codes (doc : List ClamlClass) (lang : String) (fuel : Nat) :
    ∀ ts : List ClamlClass, (∀ t ∈ ts, t ∈ doc) →
      ∀ st st2, runTops (build_code_map doc) lang fuel ts st = some st2 →
      (∀ p ∈ st.index, ∃ c2 ∈ doc, c2.code = p.1) →
      (∀ p ∈ st2.index, ∃ c2 ∈ doc, c2.code = p.1) := by
  intro ts
  induction ts with
  | nil =>
    intro _ st st2 h hp
    unfold runTops at h
    cases h
    exact hp
  | cons t ts ih =>
    intro hts st st2 h hp
    unfold runTops at h
    split at h
    · exact absurd h (by simp)
    · rename_i stm hstep
      exact ih (fun t2 ht2 => hts t2 (List.mem_cons_of_mem _ ht2)) _ _ h
        (saveRec_index_codes doc lang fuel t (hts t (List.mem_cons_self _ _)) _ _ _ hstep hp)

/-- Claim C5: a declared child code with no source node is warned
about and skipped, the walk continues over the remaining children, the
missing code never receives an index entry (every index key is the
code of a document node), and the export still completes and produces
its final index. -/
theorem export_skips_missing_children :
    (∀ (doc : List ClamlClass) (lang : String) (fuel : Nat) (st : ExportState),
        export_icf doc lang fuel = some st →
        ∀ p ∈ st.index, ∃ cls ∈ doc, cls.code = p.1) ∧
      (export_icf docMissing "de" 9).map
          (fun st => (st.warnings, dictGet st.index "Q9", (dictGet st.index "B").isSome))
        = some (["Q9"], none, true) := by
  constructor
  · intro doc lang fuel st h
    refine runTops_index_codes doc lang fuel _ (fun t ht => (List.mem_filter.mp ht).1)
      _ _ h ?_
    intro p hp
    exact absurd hp (List.not_mem_nil p)
  · decide

/-- Witness for claim C5: in the concrete export of `docMissing` the
index entry for `B` indeed names a document node. -/
theorem export_skips_missing_children_witness :
    ∃ cls ∈ docMissing, cls.code = "B" :=
  export_skips_missing_children.1 docMissing "de" 9
    ((export_icf docMissing "de" 9).getD ⟨[], [], [], []⟩) (by decide)
    ("B", indexRelPath "B") (by decide)

lemma collectKids_one (index : List (String × String)) (files : List (String × NormRecord)) :
    ∀ (codes acc : List String),
      (∀ c ∈ codes, ∃ rec2, load_class index files c = Except.ok rec2) →
      collectKids index files 1 codes acc = Except.ok (acc ++ codes) := by
  intro codes
  induction codes with
  | nil =>
    intro acc _
    simp [collectKids, goKids]
  | cons c cs ih =>
    intro acc h
    obtain ⟨rec2, hr⟩ := h c (List.mem_cons_self _ _)
    have hrest := fun c2 hc2 => h c2 (List.mem_cons_of_mem _ hc2)
    have hih := ih (acc ++ [c]) hrest
    rw [collectKids] at hih ⊢
    rw [goKids, hr]
    show goKids index files (fun chs a => collectKids index files 0 chs a) cs (acc ++ [c])
      = Except.ok (acc ++ c :: cs)
    rw [hih]
    simp

/-- Claim C7 (amended): depth 1 returns exactly the direct children in
declared order (whenever each child's record resolves), an unknown
root code raises the named `KeyError`, and in the concrete [X, Y] / [Z]
example `list_children root 2` returns `[X, Z, Y]` — all depth-2
descendants, but in depth-first order, not `[X, Y, Z]`. -/
theorem list_children_depth_rule :
    (∀ (index : List (String × String)) (files : List (String × NormRecord))
        (code : String) (parent : NormRecord),
        load_class index files code = Except.ok parent →
        (∀ c ∈ parent.children, ∃ rec2, load_class index files c = Except.ok rec2) →
        list_children index files code 1 = Except.ok parent.children) ∧
      (∀ (index : List (String × String)) (files : List (String × NormRecord))
          (code : String) (depth : Nat),
          dictGet index code = none →
          list_children index files code depth = Except.error (LookupErr.keyError code)) ∧
      list_children idxDepth filesDepth "root" 2 = Except.ok ["X", "Z", "Y"] := by
  refine ⟨?_, ?_, by decide⟩
  · intro index files code parent hl hc
    unfold list_children
    rw [hl]
    show collectKids index files 1 parent.children [] = Except.ok parent.children
    rw [collectKids_one index files parent.children [] hc]
    simp
  · intro index files code depth h
    unfold list_children load_class
    rw [h]

/-- Witness for (amended) claim C7 at the concrete example store. -/
theorem list_children_depth_rule_witness :
    list_children idxDepth filesDepth "root" 1 = Except.ok ["X", "Y"] := by
  have h := list_children_depth_rule.1 idxDepth filesDepth "root"
    { code := "root", kind := some "component", children := ["X", "Y"] }
    (by decide)
    (by
      intro c hc
      simp only [List.mem_cons, List.not_mem_nil, or_false] at hc
      rcases hc with rfl | rfl
      · exact ⟨{ code := "X", kind := none, children := ["Z"] }, by decide⟩
      · exact ⟨{ code := "Y", kind := none, children := [] }, by decide⟩)
  exact h

/-- Counterexample to claim C7 as stated: `list_children(root, 2)` on
the [X, Y] / [Z] example equals `[X, Z, Y]`, not `[X, Y, Z]`. -/
theorem list_children_depth2_order :
    list_children idxDepth filesDepth "root" 2 = Except.ok ["X", "Z", "Y"] ∧
      (Except.ok ["X", "Z", "Y"] : Except LookupErr (List String))
        ≠ Except.ok ["X", "Y", "Z"] :=
  ⟨by decide, by decide⟩

/-- Claim C10: `list_children` resolves every child inside the depth
budget unconditionally, so a traversed record whose `children` list
names a code with no index entry — exactly what the export produces
for a declared-but-missing child — raises `KeyError` instead of being
skipped: the concrete store exported from `docMissing` makes even the
depth-1 call fail. -/
theorem list_children_missing_child_keyerror :
    (∀ (index : List (String × String)) (files : List (String × NormRecord))
        (code : String) (parent : NormRecord) (c : String) (cs : List String) (d : Nat),
        load_class index files code = Except.ok parent →
        parent.children = c :: cs →
        dictGet index c = none →
        list_children index files code (d + 1) = Except.error (LookupErr.keyError c)) ∧
      (export_icf docMissing "de" 9).map
          (fun st => list_children st.index st.files "root" 1)
        = some (Except.error (LookupErr.keyError "Q9")) := by
  constructor
  · intro index files code parent c cs d hload hch hidx
    unfold list_children
    rw [hload]
    show collectKids index files (d + 1) parent.children []
      = Except.error (LookupErr.keyError c)
    rw [hch]
    rw [collectKids, goKids]
    unfold load_class
    rw [hidx]
  · decide

/-- Witness for claim C10: applying the general statement to the store
exported from `docMissing`, whose root record still declares `Q9`. -/
theorem list_children_missing_child_keyerror_witness :
    list_children ((export_icf docMissing "de" 9).getD ⟨[], [], [], []⟩).index
        ((export_icf docMissing "de" 9).getD ⟨[], [], [], []⟩).files "root" 1
      = Except.error (LookupErr.keyError "Q9") :=
  list_children_missing_child_keyerror.1
    ((export_icf docMissing "de" 9).getD ⟨[], [], [], []⟩).index
    ((export_icf docMissing "de" 9).getD ⟨[], [], [], []⟩).files
    "root" { code := "root", kind := some "component", children := ["Q9", "B"] }
    "Q9" ["B"] 0 (by decide) (by decide) (by decide)

lemma flat_lookup (files : List (String × NormRecord)) :
    ∀ (index : List (String × String)) (code rel : String) (rec2 : NormRecord),
      dictGet index code = some rel →
      dictGet files rel = some rec2 →
      dictGet (create_flat files index).1 code = some rec2 := by
  intro index
  induction index with
  | nil =>
    intro code rel rec2 h
    simp [dictGet] at h
  | cons p rest ih =>
    obtain ⟨k, rl⟩ := p
    intro code rel rec2 hidx hfile
    by_cases hk : code = k
    · rw [dictGet, if_pos hk] at hidx
      rw [Option.some.injEq] at hidx
      subst hidx
      rw [create_flat, hfile]
      show dictGet ((k, rec2) :: (create_flat files rest).1) code = some rec2
      rw [dictGet, if_pos hk]
    · rw [dictGet, if_neg hk] at hidx
      rw [create_flat]
      cases hfl : dictGet files rl with
      | none =>
        show dictGet (create_flat files rest).1 code = some rec2
        exact ih code rel rec2 hidx hfile
      | some d =>
        show dictGet ((k, d) :: (create_flat files rest).1) code = some rec2
        rw [dictGet, if_neg hk]
        exact ih code rel rec2 hidx hfile

/-- Claim C8: for every code in the index whose record is readable,
the flattened view holds exactly the record returned by direct
single-record lookup of that code over the same index and storage. -/
theorem flatten_matches_lookup :
    ∀ (index : List (String × String)) (files : List (String × NormRecord))
      (code rel : String) (rec2 : NormRecord),
      dictGet index code = some rel →
      dictGet files rel = some rec2 →
      dictGet (create_flat files index).1 code = some rec2 ∧
        load_class index files code = Except.ok rec2 := by
  intro index files code rel rec2 h1 h2
  refine ⟨flat_lookup files index code rel rec2 h1 h2, ?_⟩
  unfold load_class
  rw [h1]
  show (match dictGet files rel with
    | none => Except.error (LookupErr.fileError rel)
    | some rec3 => Except.ok rec3) = Except.ok rec2
  rw [h2]

/-- Witness for claim C8 at the concrete example store. -/
theorem flatten_matches_lookup_witness :
    dictGet (create_flat filesDepth idxDepth).1 "X"
        = some { code := "X", kind := none, children := ["Z"] } ∧
      load_class idxDepth filesDepth "X"
        = Except.ok { code := "X", kind := none, children := ["Z"] } :=
  flatten_matches_lookup idxDepth filesDepth "X" "X.json"
    { code := "X", kind := none, children := ["Z"] } (by decide) (by decide)

lemma statsScan_eq (files : List (String × NormRecord)) :
    ∀ index : List (String × String),
      statsScan files index =
        (index.filterMap fun p => (dictGet files p.2).map fun _ => countSlash p.2,
         index.filterMap fun p => (dictGet files p.2).map fun d => d.children.length,
         index.filterMap fun p =>
           match dictGet files p.2 with
           | none => some p.1
           | some _ => none) := by
  intro index
  induction index with
  | nil => rfl
  | cons p rest ih =>
    obtain ⟨code, rel⟩ := p
    rw [statsScan, ih]
    cases h : dictGet files rel <;>
      simp [List.filterMap_cons, h]

lemma missing_readable_length (files : List (String × NormRecord)) :
    ∀ index : List (String × String),
      (index.filterMap fun p =>
          match dictGet files p.2 with
          | none => some p.1
          | some _ => none).length
        + (index.filter fun p => (dictGet files p.2).isSome).length
        = index.length := by
  intro index
  induction index with
  | nil => rfl
  | cons p rest ih =>
    cases h : dictGet files p.2 <;>
      simp [List.filterMap_cons, List.filter_cons, h] <;> omega

lemma depth_sample_eq (files : List (String × NormRecord)) :
    ∀ index : List (String × String),
      (index.filterMap fun p => (dictGet files p.2).map fun _ => countSlash p.2)
        = (index.filter fun p => (dictGet files p.2).isSome).map fun p => countSlash p.2 := by
  intro index
  induction index with
  | nil => rfl
  | cons p rest ih =>
    cases h : dictGet files p.2 <;>
      simp [List.filterMap_cons, List.filter_cons, h, ih]

lemma child_sample_length (files : List (String × NormRecord)) :
    ∀ index : List (String × String),
      (index.filterMap fun p => (dictGet files p.2).map fun d => d.children.length).length
        = (index.filter fun p => (dictGet files p.2).isSome).length := by
  intro index
  induction index with
  | nil => rfl
  | cons p rest ih =>
    cases h : dictGet files p.2 <;>
      simp [List.filterMap_cons, List.filter_cons, h, ih]

/-- Claim C6 (amended, for the Derived View Builder's `stats` in
icf_to_json.py): `total_classes` is the number of readable records
(effective count), `max_depth` the maximum separator count over the
readable entries only, and `avg_children` the two-decimal-rounded mean
of their direct-child counts; unreadable index entries are excluded
from the total and from both samples.  (The remote client's `stats`
violates this; see the counterexample below.) -/
theorem stats_effective_counts :
    ∀ (index : List (String × String)) (files : List (String × NormRecord)),
      stats index files =
        { total_classes := (index.filter fun p => (dictGet files p.2).isSome).length
          max_depth :=
            ((index.filter fun p => (dictGet files p.2).isSome).map
              fun p => countSlash p.2).foldr max 0
          avg_children :=
            if (index.filter fun p => (dictGet files p.2).isSome).isEmpty then 0
            else pyRound2 (ratMean (index.filterMap
              fun p => (dictGet files p.2).map fun d => d.children.length)) } := by
  intro index files
  unfold stats
  rw [statsScan_eq]
  have hlen := missing_readable_length files index
  have hcc := child_sample_length files index
  simp only [StatsOut.mk.injEq]
  refine ⟨by omega, ?_, ?_⟩
  · rw [depth_sample_eq]
  · have hemp : (index.filterMap fun p =>
          (dictGet files p.2).map fun d => d.children.length).isEmpty
        = (index.filter fun p => (dictGet files p.2).isSome).isEmpty := by
      rw [Bool.eq_iff_iff]
      simp only [List.isEmpty_iff_length_eq_zero, hcc]
    rw [hemp]

/-- Counterexample to claim C6 as stated: the remote client's `stats`
on a one-entry index whose only record is unreadable reports
`total_classes = 1` (the nominal index size, though zero records were
successfully read) and samples the unreadable entry's depth
(`max_depth = 1` instead of 0). -/
theorem github_stats_nominal_count :
    (githubStats idxBroken netExn).total_classes = 1 ∧
      (githubStats idxBroken netExn).max_depth = 1 ∧
      (fetch_class netExn [] "b1/b1.json").result = none :=
  ⟨by decide, by decide, by decide⟩

lemma tryAlts_none (network : String → HttpResult) :
    ∀ alts : List String,
      (∀ a ∈ alts, ∀ r, network a ≠ HttpResult.ok r) →
      tryAlts network alts = (none, alts) := by
  intro alts
  induction alts with
  | nil => intro _; rfl
  | cons a rest ih =>
    intro h
    rw [tryAlts]
    cases hn : network a with
    | ok r => exact absurd hn (h a (List.mem_cons_self _ _) r)
    | err s =>
      rw [ih fun a2 ha2 r => h a2 (List.mem_cons_of_mem _ ha2) r]
    | exn =>
      rw [ih fun a2 ha2 r => h a2 (List.mem_cons_of_mem _ ha2) r]

lemma fetch_class_hit (network : String → HttpResult)
    (cache : List (String × Option NormRecord)) (rel_path : String) (v : Option NormRecord)
    (h : dictGet cache rel_path = some v) :
    fetch_class network cache rel_path = ⟨v, cache, []⟩ := by
  unfold fetch_class
  rw [h]

lemma fetch_class_cached (network : String → HttpResult)
    (cache : List (String × Option NormRecord)) (rel_path : String) :
    dictGet (fetch_class network cache rel_path).cache rel_path
      = some (fetch_class network cache rel_path).result := by
  unfold fetch_class
  dsimp only
  split
  · rename_i cached hc
    exact hc
  · split
    · exact dictGet_upd_self _ _ _
    · split
      · split
        · exact dictGet_upd_self _ _ _
        · exact dictGet_upd_self _ _ _
      · exact dictGet_upd_self _ _ _
    · exact dictGet_upd_self _ _ _

lemma fetch_class_404_fallback (network : String → HttpResult)
    (cache : List (String × Option NormRecord)) (rel_path : String)
    (hmiss : dictGet cache rel_path = none)
    (h404 : network rel_path = HttpResult.err 404)
    (htry : tryAlts network (fetchAlternatives (relCode rel_path))
      = (none, fetchAlternatives (relCode rel_path))) :
    fetch_class network cache rel_path =
      ⟨some (placeholderRecord (relCode rel_path)),
        dictUpd cache rel_path (some (placeholderRecord (relCode rel_path))),
        rel_path :: fetchAlternatives (relCode rel_path)⟩ := by
  unfold fetch_class
  simp only [hmiss, h404, htry, if_true]

/-- Claim C9: every `fetch_class` outcome is cached under the
originally requested path, so an immediately repeated fetch returns
the same result without any network request; and when the primary GET
is a 404 and every one of the (at most 3) alternative shapes fails,
the result is the synthesized placeholder record carrying the code and
the missing-entry marker text, with at most 4 requests issued. -/
theorem fetch_class_fallback_and_cache :
    (∀ (network : String → HttpResult) (cache : List (String × Option NormRecord))
        (rel_path : String),
        fetch_class network (fetch_class network cache rel_path).cache rel_path
          = { result := (fetch_class network cache rel_path).result
              cache := (fetch_class network cache rel_path).cache
              calls := [] }) ∧
      (∀ (network : String → HttpResult) (cache : List (String × Option NormRecord))
          (rel_path : String),
          dictGet cache rel_path = none →
          network rel_path = HttpResult.err 404 →
          (∀ a ∈ fetchAlternatives (relCode rel_path), ∀ r, network a ≠ HttpResult.ok r) →
          (fetch_class network cache rel_path).result
              = some (placeholderRecord (relCode rel_path)) ∧
            (placeholderRecord (relCode rel_path)).code = relCode rel_path ∧
            (placeholderRecord (relCode rel_path)).preferred
              = some ("Fehlender Eintrag: " ++ relCode rel_path) ∧
            (fetch_class network cache rel_path).calls.length ≤ 4) := by
  constructor
  · intro network cache rel_path
    exact fetch_class_hit network (fetch_class network cache rel_path).cache rel_path
      (fetch_class network cache rel_path).result
      (fetch_class_cached network cache rel_path)
  · intro network cache rel_path hmiss h404 halts
    have htry := tryAlts_none network (fetchAlternatives (relCode rel_path)) halts
    rw [fetch_class_404_fallback network cache rel_path hmiss h404 htry]
    refine ⟨rfl, rfl, rfl, ?_⟩
    show (rel_path :: fetchAlternatives (relCode rel_path)).length ≤ 4
    rw [fetchAlternatives]
    rfl

/-- Witness for claim C9: a fully 404 network yields the placeholder
for `q1` and at most four requests. -/
theorem fetch_class_fallback_and_cache_witness :
    (fetch_class net404 [] "q1/q1.json").result = some (placeholderRecord "q1") ∧
      (fetch_class net404 [] "q1/q1.json").calls.length ≤ 4 := by
  have h := fetch_class_fallback_and_cache.2 net404 [] "q1/q1.json" (by decide) (by decide)
    (fun a ha r hr => HttpResult.noConfusion hr)
  exact ⟨h.1, h.2.2.2⟩
